import Mathlib

attribute [local semireducible] Rat.mul Rat.add Rat.sub Rat.inv

/-!
Verification of the Schicchi signal-to-fill reconciliation and strategy
performance engine against its specification.

Numbers are modelled as rationals (`ℚ`); JavaScript `null`/`undefined` is
modelled as `Option`.  Components whose implementation is not part of the
web sources (submitter, reconciler, deriver, aggregator) are modelled from
the specification text and flagged as such in their doc comments.
-/

namespace Schicchi

/-! ### Formatting helpers (from `apps/web/lib/format.ts`) -/

/-- Zero-padded two-digit rendering of a natural number below 100. -/
def pad2 (n : Nat) : String :=
  if n < 10 then "0" ++ toString n else toString n

/-- Numerator chosen by `toFixed(2)` at a nonnegative rational `x`: the
integer nearest to `x * 100`, ties resolved to the larger integer
(ECMAScript `Number.prototype.toFixed`). -/
def fixed2Num (x : ℚ) : ℤ :=
  ⌊x * 100 + 1 / 2⌋

/-- Decimal rendering of a nonnegative rational with exactly two places. -/
def fixed2Pos (x : ℚ) : String :=
  let n := (fixed2Num x).toNat
  toString (n / 100) ++ "." ++ pad2 (n % 100)

/-- JavaScript `x.toFixed(2)`: negative inputs are rendered as the sign
followed by the rendering of the magnitude. -/
def toFixed2 (x : ℚ) : String :=
  if x < 0 then "-" ++ fixed2Pos (-x) else fixed2Pos x

/-- `fmtPct` from `apps/web/lib/format.ts`: `"-"` for `null`/`undefined`,
otherwise `(v * 100).toFixed(2)` followed by `"%"`. -/
def fmtPct (v : Option ℚ) : String :=
  match v with
  | none => "-"
  | some q => toFixed2 (q * 100) ++ "%"

/-! ### Profit factor and rollup -/

/-- Modelled from the spec: `profit_factor = gross_profit / |gross_loss|`,
undefined (reported as `null`) when `gross_loss = 0`; the report API route
computing it is not among the repository sources. -/
def pfOf (gp gl : ℚ) : Option ℚ :=
  if gl = 0 then none else some (gp / |gl|)

/-- Modelled from the spec: `win_rate = wins / total_closed_trades`,
undefined when there are no closed trades. -/
def winRateOf (wins total : Nat) : Option ℚ :=
  if total = 0 then none else some ((wins : ℚ) / (total : ℚ))

/-- Modelled from the spec: the Sharpe ratio computed over the strategy's
own per-trade return series, `mean / √variance` (population variance).
The square root is irrational in general, so the ratio is represented by
its sign-preserving square `mean * |mean| / variance`, of which the Sharpe
ratio is the sign-preserving square root; `none` when the series is empty
or the variance is zero. -/
def sharpeSqOf (rs : List ℚ) : Option ℚ :=
  if rs.length = 0 then none
  else
    let m : ℚ := rs.sum / (rs.length : ℚ)
    let v : ℚ := (rs.map fun r => (r - m) * (r - m)).sum / (rs.length : ℚ)
    if v = 0 then none else some (m * |m| / v)

/-- Rendering of a possibly-undefined profit factor, from
`strategies/[strategyId]/page.tsx`: `null` renders as `"-"`, otherwise
`toFixed(2)`. -/
def renderPF (pf : Option ℚ) : String :=
  match pf with
  | none => "-"
  | some q => toFixed2 q

/-- Per-symbol performance figures (gross loss is the signed sum of the
negative trade P&L values, hence nonpositive in intended use) together
with the strategy's own per-trade return series for that symbol. -/
structure SymbolPerf where
  symbol : String
  grossProfit : ℚ
  grossLoss : ℚ
  wins : Nat
  tradesTotal : Nat
  tradeReturns : List ℚ
deriving Repr, DecidableEq

/-- Strategy-level rolled-up performance figures. -/
structure StrategyPerf where
  grossProfit : ℚ
  grossLoss : ℚ
  wins : Nat
  tradesTotal : Nat
  tradeReturns : List ℚ
  profitFactor : Option ℚ
  winRate : Option ℚ
  sharpeSq : Option ℚ
deriving Repr, DecidableEq

/-- One accumulation step over a per-symbol row: sum the currency and
count figures and pool the per-trade return series. -/
def accStep (a : ℚ × ℚ × Nat × Nat × List ℚ) (r : SymbolPerf) :
    ℚ × ℚ × Nat × Nat × List ℚ :=
  (a.1 + r.grossProfit, a.2.1 + r.grossLoss, a.2.2.1 + r.wins,
    a.2.2.2.1 + r.tradesTotal, a.2.2.2.2 ++ r.tradeReturns)

/-- Accumulate currency, count and return-series figures across
per-symbol rows. -/
def sumAcc (rows : List SymbolPerf) : ℚ × ℚ × Nat × Nat × List ℚ :=
  rows.foldl accStep (0, 0, 0, 0, [])

/-- Modelled from the spec: the strategy-level rollup sums currency metrics
directly and recomputes the ratio metrics (profit factor, win rate,
Sharpe) from the rolled-up figures — the summed grosses and counts and
the pooled per-trade return series — never by averaging per-symbol
ratios. -/
def rollup (rows : List SymbolPerf) : StrategyPerf :=
  { grossProfit := (sumAcc rows).1
    grossLoss := (sumAcc rows).2.1
    wins := (sumAcc rows).2.2.1
    tradesTotal := (sumAcc rows).2.2.2.1
    tradeReturns := (sumAcc rows).2.2.2.2
    profitFactor := pfOf (sumAcc rows).1 (sumAcc rows).2.1
    winRate := winRateOf (sumAcc rows).2.2.1 (sumAcc rows).2.2.2.1
    sharpeSq := sharpeSqOf (sumAcc rows).2.2.2.2 }

/-! ### UI authentication (from the login route and the Basic-Auth middleware) -/

/-- Environment configuration for the UI; the empty string models an unset
variable, exactly as the code's `process.env.X || fallback` collapse does. -/
structure AuthEnv where
  uiUser : String
  uiPass : String
deriving Repr, DecidableEq

/-- `process.env.UI_BASIC_AUTH_USER || "otto"`. -/
def expectedUser (e : AuthEnv) : String :=
  if e.uiUser = "" then "otto" else e.uiUser

/-- `process.env.UI_BASIC_AUTH_PASSWORD || ""`. -/
def expectedPass (e : AuthEnv) : String :=
  e.uiPass

/-- Parsed login request body; the empty string models a missing field
(both are falsy under the code's `!username` / `!password` checks). -/
structure LoginBody where
  username : String
  password : String
deriving Repr, DecidableEq

/-- Outcome of the login route: HTTP status, error payload, and whether a
session cookie is set. -/
structure LoginResult where
  status : Nat
  errorMsg : Option String
  setsCookie : Bool
deriving Repr, DecidableEq

/-- The login route `POST` handler: 400 on missing credentials, 500 when no
password is configured, 401 on mismatch, else 200 with a session cookie. -/
def loginPost (e : AuthEnv) (b : LoginBody) : LoginResult :=
  if b.username = "" ∨ b.password = "" then
    ⟨400, some "missing_credentials", false⟩
  else if expectedPass e = "" then
    ⟨500, some "server_not_configured", false⟩
  else if b.username ≠ expectedUser e ∨ b.password ≠ expectedPass e then
    ⟨401, some "invalid_credentials", false⟩
  else
    ⟨200, none, true⟩

/-- Outcome of the Basic-Auth middleware: 401 or pass-through. -/
inductive MwResult where
  | unauthorized
  | next
deriving Repr, DecidableEq

/-- The Basic-Auth middleware; the `Authorization` header is modelled as the
decoded `user:password` pair (`none` for an absent or malformed header, the
base64 transport being immaterial to the control flow). -/
def middleware (e : AuthEnv) (creds : Option (String × String)) : MwResult :=
  if e.uiPass = "" then
    MwResult.unauthorized
  else
    match creds with
    | none => MwResult.unauthorized
    | some (u, p) =>
        if u ≠ expectedUser e ∨ p ≠ e.uiPass then
          MwResult.unauthorized
        else
          MwResult.next

/-! ### Order lifecycle and reconciler -/

/-- Order lifecycle states of the spec's state machine
`submitted → accepted → (partFilled → filled | canceled | rejected)`. -/
inductive OStatus where
  | submitted
  | accepted
  | partFilled
  | filled
  | canceled
  | rejected
  | errored
deriving Repr, DecidableEq

/-- A broker status report carrying the broker's own monotonically
increasing update sequence number. -/
structure BrokerUpdate where
  status : OStatus
  seq : Nat
deriving Repr, DecidableEq

/-- Locally stored order state with the sequence number of the last
applied broker update. -/
structure OrdState where
  status : OStatus
  seq : Nat
deriving Repr, DecidableEq

/-- Modelled from the spec: the Order Reconciler's merge rule — apply an
incoming broker status update only if it is causally later (by the
broker's update sequence) than the locally stored state; the reconciler
implementation is not among the repository sources. -/
def applyUpdate (o : OrdState) (u : BrokerUpdate) : OrdState :=
  if o.seq < u.seq then ⟨u.status, u.seq⟩ else o

/-- Fold a stream of broker updates (push or pull, in arrival order) into
the stored order state. -/
def applyUpdates (o : OrdState) (us : List BrokerUpdate) : OrdState :=
  us.foldl applyUpdate o

/-! ### Signal store and idempotent order submitter -/

/-- An inbound webhook alert from the charting platform. -/
structure Alert where
  symbol : String
  strategyId : String
  stamp : Nat
  event : String
  side : String
  price : ℚ
  qty : ℚ
deriving Repr, DecidableEq

/-- Modelled from the spec: the trade identifier is derived
deterministically from the alert's symbol, strategy, timestamp and event,
so re-delivery of the same alert collapses to the same `trade_id`. -/
def tradeIdOf (a : Alert) : String :=
  a.symbol ++ "|" ++ a.strategyId ++ "|" ++ toString a.stamp ++ "|" ++ a.event

/-- A persisted Signal row. -/
structure SignalRow where
  tid : String
  symbol : String
  strategyId : String
  side : String
  event : String
  price : ℚ
  qty : ℚ
deriving Repr, DecidableEq

/-- A persisted Order row (status owned by the reconciler afterwards). -/
structure OrderRow where
  tid : String
  status : OStatus
  qty : ℚ
deriving Repr, DecidableEq

/-- The shared durable state written by the signal store and the
submitter, together with a counter of broker submission calls. -/
structure EngineState where
  signals : List SignalRow
  orders : List OrderRow
  brokerCalls : Nat
deriving Repr, DecidableEq

/-- Look up the Order row for a trade identifier. -/
def findOrderRow (st : EngineState) (tid : String) : Option OrderRow :=
  st.orders.find? (fun o => o.tid == tid)

/-- Whether a Signal row with the given trade identifier exists. -/
def hasSignal (st : EngineState) (tid : String) : Bool :=
  st.signals.any (fun s => s.tid == tid)

/-- Signal row built from an alert. -/
def mkSignal (a : Alert) : SignalRow :=
  ⟨tradeIdOf a, a.symbol, a.strategyId, a.side, a.event, a.price, a.qty⟩

/-- Fresh Order row for a signal, in `submitted` state. -/
def mkOrder (s : SignalRow) : OrderRow :=
  ⟨s.tid, OStatus.submitted, s.qty⟩

/-- Modelled from the spec: `submit(signal)` — if an Order already exists
for the trade identifier, return it unchanged with no broker call;
otherwise persist a new Order in `submitted` state and perform exactly one
broker submission call.  The submitter implementation is not among the
repository sources. -/
def submit (st : EngineState) (s : SignalRow) : OrderRow × EngineState :=
  match findOrderRow st s.tid with
  | some o => (o, st)
  | none =>
      let o := mkOrder s
      (o, { st with orders := st.orders ++ [o], brokerCalls := st.brokerCalls + 1 })

/-- Modelled from the spec: webhook delivery of an alert — persist the
Signal row unless one already exists for the derived trade identifier,
then run the idempotent submitter. -/
def ingest (st : EngineState) (a : Alert) : EngineState :=
  (submit
    (if hasSignal st (tradeIdOf a) then st
     else { st with signals := st.signals ++ [mkSignal a] })
    (mkSignal a)).2

/-- Deliver the same alert `n` times in a row. -/
def ingestN : Nat → EngineState → Alert → EngineState
  | 0, st, _ => st
  | n + 1, st, a => ingestN n (ingest st a) a

/-- Number of Signal rows recorded for a trade identifier. -/
def sigCount (st : EngineState) (tid : String) : Nat :=
  (st.signals.filter (fun s => s.tid == tid)).length

/-- Number of Order rows recorded for a trade identifier. -/
def ordCount (st : EngineState) (tid : String) : Nat :=
  (st.orders.filter (fun o => o.tid == tid)).length

/-! ### Position and round-trip deriver -/

/-- A committed fill, tagged with its strategy and symbol; `qty` is signed
(positive buy, negative sell) and `seq` is the stable sequence number used
to break timestamp ties. -/
structure Fill where
  strategyId : String
  symbol : String
  time : Nat
  seq : Nat
  qty : ℚ
  price : ℚ
deriving Repr, DecidableEq

/-- A closed entry-to-flat round trip; `dir` is `1` for long, `-1` for
short; the notionals are the unsigned sums of quantity times price over
the opening and closing fills of the cycle. -/
structure RoundTrip where
  entryTime : Nat
  exitTime : Nat
  dir : ℚ
  entryNotional : ℚ
  exitNotional : ℚ
  netPnl : ℚ
deriving Repr, DecidableEq

/-- Sign of a rational as a rational. -/
def dsign (q : ℚ) : ℚ :=
  if 0 < q then 1 else if q < 0 then -1 else 0

/-- Replay state of the deriver for one (strategy, symbol) pair: signed
quantity, volume-weighted average entry price, direction of the open
cycle, entry/exit notional accumulators and realized P&L of the open
cycle, open time, and the ledger of closed round trips. -/
structure DState where
  qty : ℚ
  avg : ℚ
  dir : ℚ
  entryN : ℚ
  exitN : ℚ
  pnl : ℚ
  openTime : Nat
  trades : List RoundTrip
deriving Repr, DecidableEq

/-- Flat initial state with an empty round-trip ledger. -/
def initD : DState :=
  ⟨0, 0, 0, 0, 0, 0, 0, []⟩

/-- Round trip materialized when a fill takes the open cycle to flat: the
closing portion of the fill has signed quantity `-s.qty`. -/
def closeTrade (s : DState) (f : Fill) : RoundTrip :=
  { entryTime := s.openTime
    exitTime := f.time
    dir := s.dir
    entryNotional := s.entryN
    exitNotional := s.exitN + |s.qty| * f.price
    netPnl := s.pnl + (s.avg - f.price) * (-s.qty) }

/-- Open a fresh cycle of signed quantity `rem` at the fill's price. -/
def openFrom (f : Fill) (rem : ℚ) (ts : List RoundTrip) : DState :=
  ⟨rem, f.price, dsign rem, |rem| * f.price, 0, 0, f.time, ts⟩

/-- Modelled from the spec: one step of the deriver.  A fill that opens
from flat or increases the position in its direction updates the
volume-weighted entry price; a fill that reduces the position without
crossing zero realizes proportional P&L; a fill that lands on zero closes
the round trip; a fill that crosses zero closes the round trip and opens a
reversed position with the remainder at the fill price.  The deriver
implementation is not among the repository sources. -/
def applyFill (s : DState) (f : Fill) : DState :=
  if s.qty = 0 then
    openFrom f f.qty s.trades
  else if 0 < s.qty * f.qty then
    { s with
        qty := s.qty + f.qty
        avg := (s.avg * s.qty + f.price * f.qty) / (s.qty + f.qty)
        entryN := s.entryN + |f.qty| * f.price }
  else if |f.qty| < |s.qty| then
    { s with
        qty := s.qty + f.qty
        exitN := s.exitN + |f.qty| * f.price
        pnl := s.pnl + (s.avg - f.price) * f.qty }
  else if s.qty + f.qty = 0 then
    { initD with trades := s.trades ++ [closeTrade s f] }
  else
    openFrom f (s.qty + f.qty) (s.trades ++ [closeTrade s f])

/-- Replay a fill sequence (already in replay order) from flat. -/
def derive (l : List Fill) : DState :=
  l.foldl applyFill initD

/-- Replay order on fills: fill time, ties broken by the stable sequence
number. -/
def fillLE (f g : Fill) : Prop :=
  f.time < g.time ∨ (f.time = g.time ∧ f.seq ≤ g.seq)

instance : DecidableRel fillLE := fun f g => by
  unfold fillLE
  exact inferInstance

instance : IsTotal Fill fillLE :=
  ⟨fun f g => by
    unfold fillLE
    rcases lt_trichotomy f.time g.time with h | h | h
    · exact Or.inl (Or.inl h)
    · rcases Nat.le_total f.seq g.seq with hs | hs
      · exact Or.inl (Or.inr ⟨h, hs⟩)
      · exact Or.inr (Or.inr ⟨h.symm, hs⟩)
    · exact Or.inr (Or.inl h)⟩

instance : IsTrans Fill fillLE :=
  ⟨fun f g k hfg hgk => by
    unfold fillLE at *
    rcases hfg with h1 | ⟨h1, h2⟩ <;> rcases hgk with h3 | ⟨h3, h4⟩
    · exact Or.inl (h1.trans h3)
    · exact Or.inl (h3 ▸ h1)
    · exact Or.inl (h1 ▸ h3)
    · exact Or.inr ⟨h1.trans h3, h2.trans h4⟩⟩

/-- Sort fills into replay order. -/
def sortFills (l : List Fill) : List Fill :=
  List.insertionSort fillLE l

/-- The deriver's entry point: replay the fill history of one
(strategy, symbol) pair in fill-time order, ties broken by the stable
sequence number. -/
def replay (l : List Fill) : DState :=
  derive (sortFills l)

/-- Replay-order key of a fill. -/
def keyOf (f : Fill) : Nat × Nat :=
  (f.time, f.seq)

/-- Fills belonging to one (strategy, symbol) pair. -/
def fillsFor (sid sym : String) (l : List Fill) : List Fill :=
  l.filter (fun f => f.strategyId == sid && f.symbol == sym)

/-- Strategy-scoped derivation: the deriver run on the strategy's own
fills for one symbol only. -/
def deriveFor (sid sym : String) (l : List Fill) : DState :=
  replay (fillsFor sid sym l)

/-! ### Derived invariants and concrete scenario data -/

/-- P&L conservation for a closed round trip: the net P&L equals the
direction-signed difference between exit and entry notional. -/
def conservOk (t : RoundTrip) : Prop :=
  t.netPnl = t.dir * (t.exitNotional - t.entryNotional)

/-- Inductive invariant of the deriver's replay state: every materialized
round trip conserves P&L, and while a cycle is open, the direction field
is the sign of the signed quantity and the moving-average identity
`avg * qty = dir * (entryN - exitN) + pnl` holds. -/
def DInv (s : DState) : Prop :=
  (∀ t ∈ s.trades, conservOk t) ∧
  (s.qty ≠ 0 →
    s.dir = dsign s.qty ∧ s.avg * s.qty = s.dir * (s.entryN - s.exitN) + s.pnl)

/-- First scenario fill: buy 10 NVDA at 100 for strategy `s1`. -/
def fb1 : Fill := ⟨"s1", "NVDA", 1, 1, 10, 100⟩

/-- Second scenario fill: buy 10 NVDA at 110 for strategy `s1`. -/
def fb2 : Fill := ⟨"s1", "NVDA", 2, 2, 10, 110⟩

/-- Third scenario fill: sell 20 NVDA at 120 for strategy `s1`. -/
def fs3 : Fill := ⟨"s1", "NVDA", 3, 3, -20, 120⟩

/-- A second strategy's buy of the same symbol (for the isolation scenario). -/
def gb2 : Fill := ⟨"s2", "NVDA", 2, 2, 10, 100⟩

/-- Strategy `s1` closing its NVDA position (for the isolation scenario). -/
def gx3 : Fill := ⟨"s1", "NVDA", 3, 3, -10, 120⟩

/-- The round trip produced by the scenario buy 10 @ 100, buy 10 @ 110,
sell 20 @ 120. -/
def rtDemo : RoundTrip := ⟨1, 3, 1, 2100, 2400, 300⟩

/-- A concrete inbound alert used to witness idempotent ingestion. -/
def demoAlert : Alert := ⟨"NVDA", "s1", 100, "entry", "buy", 150, 10⟩

end Schicchi

namespace Schicchi

/-! ### Formatting lemmas (claim C10) -/

lemma fixed2Num_le (x : ℚ) : (fixed2Num x : ℚ) ≤ x * 100 + 1 / 2 :=
  Int.floor_le _

lemma lt_fixed2Num_add_one (x : ℚ) : x * 100 + 1 / 2 < fixed2Num x + 1 :=
  Int.lt_floor_add_one _

lemma abs_fixed2Num_sub_le (x : ℚ) : |(fixed2Num x : ℚ) - x * 100| ≤ 1 / 2 := by
  have h1 := fixed2Num_le x
  have h2 := lt_fixed2Num_add_one x
  rw [abs_le]
  constructor <;> linarith

lemma fixed2Num_nearest (x : ℚ) (m : ℤ) :
    |(fixed2Num x : ℚ) - x * 100| ≤ |(m : ℚ) - x * 100| := by
  rcases lt_trichotomy m (fixed2Num x) with h | h | h
  · have hm : (m : ℚ) ≤ (fixed2Num x : ℚ) - 1 := by
      have hm1 : m + 1 ≤ fixed2Num x := h
      have : ((m + 1 : ℤ) : ℚ) ≤ ((fixed2Num x : ℤ) : ℚ) := by exact_mod_cast hm1
      push_cast at this
      linarith
    have h1 := fixed2Num_le x
    have hmid : (1 : ℚ) / 2 ≤ x * 100 - m := by linarith
    calc |(fixed2Num x : ℚ) - x * 100| ≤ 1 / 2 := abs_fixed2Num_sub_le x
      _ ≤ x * 100 - m := hmid
      _ ≤ |(m : ℚ) - x * 100| := by
          rw [abs_sub_comm]
          exact le_abs_self _
  · rw [h]
  · have hm : (fixed2Num x : ℚ) + 1 ≤ (m : ℚ) := by
      have hm1 : fixed2Num x + 1 ≤ m := h
      exact_mod_cast hm1
    have h2 := lt_fixed2Num_add_one x
    have hmid : (1 : ℚ) / 2 ≤ (m : ℚ) - x * 100 := by linarith
    calc |(fixed2Num x : ℚ) - x * 100| ≤ 1 / 2 := abs_fixed2Num_sub_le x
      _ ≤ (m : ℚ) - x * 100 := hmid
      _ ≤ |(m : ℚ) - x * 100| := le_abs_self _

lemma fixed2Num_tie (x : ℚ) (m : ℤ)
    (h : |(fixed2Num x : ℚ) - x * 100| = |(m : ℚ) - x * 100|) :
    m ≤ fixed2Num x := by
  by_contra hlt
  push_neg at hlt
  have hm : (fixed2Num x : ℚ) + 1 ≤ (m : ℚ) := by
    have hm1 : fixed2Num x + 1 ≤ m := hlt
    exact_mod_cast hm1
  have h2 := lt_fixed2Num_add_one x
  have habs := abs_fixed2Num_sub_le x
  have hgt : (1 : ℚ) / 2 < (m : ℚ) - x * 100 := by linarith
  have hmabs : (1 : ℚ) / 2 < |(m : ℚ) - x * 100| :=
    lt_of_lt_of_le hgt (le_abs_self _)
  rw [h] at habs
  linarith

/-- C10: `fmtPct` is total over `Option ℚ`: `null`/`undefined` renders as
`"-"`, a number `v` renders as the two-place decimal string of `v * 100`
followed by `"%"` (so `0.05` renders as `"5.00%"`), where the two-place
numerator is the integer nearest to the scaled value with ties resolved to
the larger integer.  Totality (it never throws) is inherent in the Lean
function. -/
theorem fmtPct_spec :
    fmtPct none = "-" ∧
    fmtPct (some (1 / 20)) = "5.00%" ∧
    (∀ v : ℚ, fmtPct (some v) = toFixed2 (v * 100) ++ "%") ∧
    (∀ (x : ℚ) (m : ℤ), |(fixed2Num x : ℚ) - x * 100| ≤ |(m : ℚ) - x * 100|) ∧
    (∀ (x : ℚ) (m : ℤ),
      |(fixed2Num x : ℚ) - x * 100| = |(m : ℚ) - x * 100| → m ≤ fixed2Num x) :=
  ⟨rfl, by decide, fun _ => rfl, fixed2Num_nearest, fixed2Num_tie⟩

/-- Witness for C10: the tie-breaking clause applied at `x = 1/200`,
`m = 0`, where `x * 100 = 1/2` is equidistant from `0` and from
`fixed2Num x = 1`. -/
theorem fmtPct_spec_witness : (0 : ℤ) ≤ fixed2Num (1 / 200) :=
  fmtPct_spec.2.2.2.2 (1 / 200) 0 (by decide)

/-! ### Profit factor lemmas (claim C8) -/

/-- C8: the profit factor is `null` exactly when `gross_loss = 0` (the
division is only ever performed against a nonzero divisor), it equals
`gross_profit / |gross_loss|` otherwise, and the `null` case renders as
`"-"`. -/
theorem profitFactor_defined_iff :
    (∀ gp gl : ℚ, (pfOf gp gl = none ↔ gl = 0)) ∧
    (∀ gp gl : ℚ, gl ≠ 0 → pfOf gp gl = some (gp / |gl|)) ∧
    renderPF none = "-" ∧
    (∀ gp : ℚ, renderPF (pfOf gp 0) = "-") := by
  refine ⟨fun gp gl => ?_, fun gp gl h => ?_, rfl, fun gp => ?_⟩
  · unfold pfOf
    split <;> simp_all
  · unfold pfOf
    rw [if_neg h]
  · rfl

/-- Witness for C8: a nonzero gross loss yields a defined profit factor. -/
theorem profitFactor_defined_iff_witness :
    pfOf 3 (-2) = some (3 / |(-2 : ℚ)|) :=
  profitFactor_defined_iff.2.1 3 (-2) (by decide)

/-! ### Authentication lemmas (claim C9) -/

/-- C9 counterexample: with the password unconfigured, a login request with
missing credentials is answered 400 `missing_credentials`, not 500
`server_not_configured` — the missing-credentials check runs first. -/
theorem login_unconfigured_counterexample :
    (loginPost ⟨"", ""⟩ ⟨"", ""⟩).status = 400 ∧
    ¬((loginPost ⟨"", ""⟩ ⟨"", ""⟩).status = 500 ∧
      (loginPost ⟨"", ""⟩ ⟨"", ""⟩).errorMsg = some "server_not_configured") := by
  decide

/-- C9 (amended): when `UI_BASIC_AUTH_PASSWORD` is empty or unset, the
login route never sets a session cookie; any request that does carry both
credentials is answered 500 `server_not_configured`; and the Basic-Auth
middleware answers 401 Unauthorized for every request. -/
theorem auth_fails_closed (e : AuthEnv) (b : LoginBody)
    (creds : Option (String × String)) (h : e.uiPass = "") :
    (loginPost e b).setsCookie = false ∧
    (b.username ≠ "" → b.password ≠ "" →
      loginPost e b = ⟨500, some "server_not_configured", false⟩) ∧
    middleware e creds = MwResult.unauthorized := by
  have hp : expectedPass e = "" := h
  refine ⟨?_, ?_, ?_⟩
  · unfold loginPost
    by_cases hc : b.username = "" ∨ b.password = ""
    · rw [if_pos hc]
    · rw [if_neg hc, if_pos hp]
  · intro hu hpw
    unfold loginPost
    rw [if_neg (not_or.mpr ⟨hu, hpw⟩), if_pos hp]
  · unfold middleware
    rw [if_pos h]

/-- Witness for C9 (amended): a concrete credential-bearing request against
an unconfigured environment is answered 500 with no cookie, and the
middleware rejects a request with no header. -/
theorem auth_fails_closed_witness :
    loginPost ⟨"otto", ""⟩ ⟨"otto", "pw"⟩ = ⟨500, some "server_not_configured", false⟩ ∧
    middleware ⟨"otto", ""⟩ none = MwResult.unauthorized := by
  have h := auth_fails_closed ⟨"otto", ""⟩ ⟨"otto", "pw"⟩ none rfl
  exact ⟨h.2.1 (by decide) (by decide), h.2.2⟩

/-! ### Reconciler lemmas (claim C2) -/

/-- A stale or duplicate broker update (sequence not beyond the stored
one) is a no-op under the merge rule. -/
lemma applyUpdate_stale (o : OrdState) (u : BrokerUpdate) (h : u.seq ≤ o.seq) :
    applyUpdate o u = o := by
  unfold applyUpdate
  rw [if_neg (by omega)]

lemma applyUpdates_filled_aux (base : Nat) :
    ∀ (us : List BrokerUpdate) (o : OrdState),
      o.status = OStatus.filled → base ≤ o.seq →
      (∀ u ∈ us, base < u.seq → u.status = OStatus.filled) →
      (applyUpdates o us).status = OStatus.filled ∧ base ≤ (applyUpdates o us).seq := by
  intro us
  induction us with
  | nil => exact fun o h1 h2 _ => ⟨h1, h2⟩
  | cons u t ih =>
    intro o h1 h2 h3
    have step : (applyUpdate o u).status = OStatus.filled ∧ base ≤ (applyUpdate o u).seq := by
      unfold applyUpdate
      split
      · exact ⟨h3 u (List.mem_cons_self u t) (by omega), by simp; omega⟩
      · exact ⟨h1, h2⟩
    have htail : ∀ v ∈ t, base < v.seq → v.status = OStatus.filled :=
      fun v hv => h3 v (List.mem_cons_of_mem u hv)
    exact ih (applyUpdate o u) step.1 step.2 htail

/-- C2: the reconciler never regresses an Order.  If the stored state is
the terminal `filled` and the broker's update stream is consistent (every
update causally later than the stored state still reports `filled`, since
`filled` is terminal at the broker too), then folding any arrival-ordered
mix of push and pull updates leaves the Order `filled`; in particular a
pull reporting `accepted` with an earlier sequence is a no-op. -/
theorem reconciler_never_regresses (o : OrdState) (us : List BrokerUpdate)
    (hfilled : o.status = OStatus.filled)
    (hbroker : ∀ u ∈ us, o.seq < u.seq → u.status = OStatus.filled) :
    (applyUpdates o us).status = OStatus.filled :=
  (applyUpdates_filled_aux o.seq us o hfilled le_rfl hbroker).1

/-- Witness for C2: an out-of-order pull reporting `accepted` (sequence 3)
arriving after the Order is `filled` (sequence 5) leaves it `filled`. -/
theorem reconciler_never_regresses_witness :
    (applyUpdates ⟨OStatus.filled, 5⟩ [⟨OStatus.accepted, 3⟩]).status = OStatus.filled :=
  reconciler_never_regresses ⟨OStatus.filled, 5⟩ [⟨OStatus.accepted, 3⟩] rfl (by decide)

/-! ### Submitter lemmas (claim C1) -/

lemma sigCount_eq_zero (st : EngineState) (tid : String)
    (h : hasSignal st tid = false) : sigCount st tid = 0 := by
  unfold hasSignal at h
  unfold sigCount
  rw [List.length_eq_zero, List.filter_eq_nil_iff]
  intro s hs
  exact (List.any_eq_false.mp h) s hs

lemma ordCount_eq_zero (st : EngineState) (tid : String)
    (h : findOrderRow st tid = none) : ordCount st tid = 0 := by
  unfold findOrderRow at h
  unfold ordCount
  rw [List.length_eq_zero, List.filter_eq_nil_iff]
  intro o ho
  exact (List.find?_eq_none.mp h) o ho

/-- Ingesting an alert whose trade identifier is fresh appends one Signal
row and one Order row and performs one broker call. -/
lemma ingest_fresh (st : EngineState) (a : Alert)
    (hs : hasSignal st (tradeIdOf a) = false)
    (ho : findOrderRow st (tradeIdOf a) = none) :
    ingest st a =
      { signals := st.signals ++ [mkSignal a]
        orders := st.orders ++ [mkOrder (mkSignal a)]
        brokerCalls := st.brokerCalls + 1 } := by
  unfold ingest
  rw [hs]
  simp only [Bool.false_eq_true, if_false]
  unfold submit
  have ho1 :
      findOrderRow { st with signals := st.signals ++ [mkSignal a] } (mkSignal a).tid = none := ho
  rw [ho1]

/-- Ingesting an alert whose Signal and Order rows already exist is a
complete no-op on the engine state. -/
lemma ingest_saturated (st : EngineState) (a : Alert)
    (hs : hasSignal st (tradeIdOf a) = true)
    (ho : ∃ o, findOrderRow st (tradeIdOf a) = some o) :
    ingest st a = st := by
  obtain ⟨o, ho⟩ := ho
  unfold ingest
  rw [hs]
  simp only [if_true]
  unfold submit
  have ho1 : findOrderRow st (mkSignal a).tid = some o := ho
  rw [ho1]

lemma ingestN_saturated (a : Alert) :
    ∀ (n : Nat) (st : EngineState),
      hasSignal st (tradeIdOf a) = true →
      (∃ o, findOrderRow st (tradeIdOf a) = some o) →
      ingestN n st a = st := by
  intro n
  induction n with
  | zero => intro st _ _; rfl
  | succ m ih =>
    intro st hs ho
    show ingestN m (ingest st a) a = st
    rw [ingest_saturated st a hs ho]
    exact ih st hs ho

/-- After a fresh ingest, the Signal and Order rows for the trade
identifier exist. -/
lemma ingest_fresh_saturates (st : EngineState) (a : Alert)
    (hs : hasSignal st (tradeIdOf a) = false)
    (ho : findOrderRow st (tradeIdOf a) = none) :
    hasSignal (ingest st a) (tradeIdOf a) = true ∧
    findOrderRow (ingest st a) (tradeIdOf a) = some (mkOrder (mkSignal a)) := by
  rw [ingest_fresh st a hs ho]
  constructor
  · unfold hasSignal
    simp [mkSignal]
  · unfold findOrderRow
    rw [List.find?_append]
    unfold findOrderRow at ho
    rw [ho]
    simp [mkOrder, mkSignal]

/-- C1: submission is idempotent on the trade identifier.  If an Order
already exists for a signal's trade identifier, `submit` returns it with
the state unchanged (no broker call); and delivering the same alert
`n ≥ 1` times to a state fresh for its derived trade identifier leaves
exactly one Signal row, exactly one Order row, and exactly one broker
submission call for it. -/
theorem submit_ingest_idempotent :
    (∀ (st : EngineState) (s : SignalRow) (o : OrderRow),
      findOrderRow st s.tid = some o → submit st s = (o, st)) ∧
    (∀ (st : EngineState) (a : Alert) (n : Nat), 1 ≤ n →
      hasSignal st (tradeIdOf a) = false →
      findOrderRow st (tradeIdOf a) = none →
      sigCount (ingestN n st a) (tradeIdOf a) = 1 ∧
      ordCount (ingestN n st a) (tradeIdOf a) = 1 ∧
      (ingestN n st a).brokerCalls = st.brokerCalls + 1) := by
  constructor
  · intro st s o h
    unfold submit
    rw [h]
  · intro st a n hn hs ho
    obtain ⟨m, rfl⟩ : ∃ m, n = m + 1 := ⟨n - 1, by omega⟩
    have hstep : ingestN (m + 1) st a = ingestN m (ingest st a) a := rfl
    have hsat := ingest_fresh_saturates st a hs ho
    have hfix : ingestN m (ingest st a) a = ingest st a :=
      ingestN_saturated a m (ingest st a) hsat.1 ⟨_, hsat.2⟩
    rw [hstep, hfix, ingest_fresh st a hs ho]
    refine ⟨?_, ?_, rfl⟩
    · unfold sigCount
      rw [List.filter_append]
      have h0 : List.filter (fun s => s.tid == tradeIdOf a) st.signals = [] := by
        rw [List.filter_eq_nil_iff]
        unfold hasSignal at hs
        exact List.any_eq_false.mp hs
      rw [h0]
      simp [mkSignal]
    · unfold ordCount
      rw [List.filter_append]
      have h0 : List.filter (fun o => o.tid == tradeIdOf a) st.orders = [] := by
        rw [List.filter_eq_nil_iff]
        unfold findOrderRow at ho
        exact List.find?_eq_none.mp ho
      rw [h0]
      simp [mkOrder, mkSignal]

/-- Witness for C1: delivering the same NVDA alert three times to an empty
engine yields one Signal row, one Order row, and one broker call. -/
theorem submit_ingest_idempotent_witness :
    sigCount (ingestN 3 ⟨[], [], 0⟩ demoAlert) (tradeIdOf demoAlert) = 1 ∧
    ordCount (ingestN 3 ⟨[], [], 0⟩ demoAlert) (tradeIdOf demoAlert) = 1 ∧
    (ingestN 3 ⟨[], [], 0⟩ demoAlert).brokerCalls = 1 :=
  submit_ingest_idempotent.2 ⟨[], [], 0⟩ demoAlert 3 (by omega) rfl rfl

/-! ### Sign lemmas for the deriver -/

lemma dsign_mul_abs (q : ℚ) : dsign q * |q| = q := by
  unfold dsign
  split_ifs with h1 h2
  · rw [abs_of_pos h1, one_mul]
  · rw [abs_of_neg h2]
    ring
  · have hz : q = 0 := le_antisymm (not_lt.mp h1) (not_lt.mp h2)
    rw [hz]
    simp

lemma dsign_sq (q : ℚ) (h : q ≠ 0) : dsign q * dsign q = 1 := by
  unfold dsign
  rcases lt_trichotomy q 0 with hq | hq | hq
  · rw [if_neg (by linarith), if_pos hq]
    norm_num
  · exact absurd hq h
  · rw [if_pos hq]
    norm_num

lemma abs_same_sign (q f : ℚ) (h : 0 < q * f) : |f| = dsign q * f := by
  rcases mul_pos_iff.mp h with ⟨hq, hf⟩ | ⟨hq, hf⟩
  · unfold dsign
    rw [if_pos hq, one_mul, abs_of_pos hf]
  · unfold dsign
    rw [if_neg (by linarith), if_pos hq, abs_of_neg hf]
    ring

lemma abs_opp_sign (q f : ℚ) (hq : q ≠ 0) (h : q * f ≤ 0) :
    |f| = -(dsign q * f) := by
  rcases lt_trichotomy q 0 with h1 | h1 | h1
  · have hf : 0 ≤ f := by
      by_contra hc
      push_neg at hc
      nlinarith
    unfold dsign
    rw [if_neg (by linarith), if_pos h1, abs_of_nonneg hf]
    ring
  · exact absurd h1 hq
  · have hf : f ≤ 0 := by
      by_contra hc
      push_neg at hc
      nlinarith
    unfold dsign
    rw [if_pos h1, one_mul, abs_of_nonpos hf]

lemma dsign_add_same (q f : ℚ) (h : 0 < q * f) :
    dsign (q + f) = dsign q ∧ q + f ≠ 0 := by
  rcases mul_pos_iff.mp h with ⟨hq, hf⟩ | ⟨hq, hf⟩
  · have hs : 0 < q + f := by linarith
    unfold dsign
    rw [if_pos hs, if_pos hq]
    exact ⟨rfl, by linarith⟩
  · have hs : q + f < 0 := by linarith
    unfold dsign
    rw [if_neg (by linarith), if_pos hs, if_neg (by linarith), if_pos hq]
    exact ⟨rfl, by linarith⟩

lemma dsign_add_reduce (q f : ℚ) (hq : q ≠ 0) (h : |f| < |q|) :
    dsign (q + f) = dsign q ∧ q + f ≠ 0 := by
  obtain ⟨hl, hr⟩ := abs_lt.mp h
  rcases lt_trichotomy q 0 with h1 | h1 | h1
  · have hqabs : |q| = -q := abs_of_neg h1
    rw [hqabs] at hr
    have hs : q + f < 0 := by linarith
    unfold dsign
    rw [if_neg (by linarith), if_pos hs, if_neg (by linarith), if_pos h1]
    exact ⟨rfl, by linarith⟩
  · exact absurd h1 hq
  · have hqabs : |q| = q := abs_of_pos h1
    rw [hqabs] at hl
    have hs : 0 < q + f := by linarith
    unfold dsign
    rw [if_pos hs, if_pos h1]
    exact ⟨rfl, by linarith⟩

/-! ### Conservation invariant of the deriver (claim C4) -/

lemma closeTrade_conserv (s : DState) (f : Fill)
    (hd : s.dir = dsign s.qty)
    (hinv : s.avg * s.qty = s.dir * (s.entryN - s.exitN) + s.pnl) :
    conservOk (closeTrade s f) := by
  unfold conservOk closeTrade
  simp only
  have habs : s.dir * |s.qty| = s.qty := by
    rw [hd]
    exact dsign_mul_abs s.qty
  linear_combination (-1 : ℚ) * hinv - f.price * habs

lemma DInv_openFrom (f : Fill) (r : ℚ) (ts : List RoundTrip)
    (hts : ∀ t ∈ ts, conservOk t) : DInv (openFrom f r ts) := by
  refine ⟨hts, fun _ => ⟨rfl, ?_⟩⟩
  show f.price * r = dsign r * (|r| * f.price - 0) + 0
  linear_combination (-f.price) * dsign_mul_abs r

lemma DInv_applyFill (s : DState) (f : Fill) (h : DInv s) :
    DInv (applyFill s f) := by
  obtain ⟨htr, hcyc⟩ := h
  unfold applyFill
  split_ifs with h1 h2 h3 h4
  · exact DInv_openFrom f f.qty s.trades htr
  · obtain ⟨hd, hinv⟩ := hcyc h1
    obtain ⟨hds, hne⟩ := dsign_add_same s.qty f.qty h2
    refine ⟨htr, fun _ => ⟨?_, ?_⟩⟩
    · show s.dir = dsign (s.qty + f.qty)
      rw [hds, ← hd]
    · show (s.avg * s.qty + f.price * f.qty) / (s.qty + f.qty) * (s.qty + f.qty) =
        s.dir * (s.entryN + |f.qty| * f.price - s.exitN) + s.pnl
      rw [div_mul_cancel₀ _ hne]
      have habs : |f.qty| = dsign s.qty * f.qty := abs_same_sign s.qty f.qty h2
      rw [habs, ← hd]
      have hsq : s.dir * s.dir = 1 := by
        rw [hd]
        exact dsign_sq s.qty h1
      linear_combination hinv - f.price * f.qty * hsq
  · obtain ⟨hd, hinv⟩ := hcyc h1
    obtain ⟨hds, hne⟩ := dsign_add_reduce s.qty f.qty h1 h3
    refine ⟨htr, fun _ => ⟨?_, ?_⟩⟩
    · show s.dir = dsign (s.qty + f.qty)
      rw [hds, ← hd]
    · show s.avg * (s.qty + f.qty) =
        s.dir * (s.entryN - (s.exitN + |f.qty| * f.price)) +
          (s.pnl + (s.avg - f.price) * f.qty)
      have habs : |f.qty| = -(dsign s.qty * f.qty) :=
        abs_opp_sign s.qty f.qty h1 (not_lt.mp h2)
      rw [habs, ← hd]
      have hsq : s.dir * s.dir = 1 := by
        rw [hd]
        exact dsign_sq s.qty h1
      linear_combination hinv - f.price * f.qty * hsq
  · obtain ⟨hd, hinv⟩ := hcyc h1
    refine ⟨?_, fun hne => absurd rfl hne⟩
    intro t ht
    rcases List.mem_append.mp ht with hm | hm
    · exact htr t hm
    · rw [List.mem_singleton.mp hm]
      exact closeTrade_conserv s f hd hinv
  · obtain ⟨hd, hinv⟩ := hcyc h1
    apply DInv_openFrom
    intro t ht
    rcases List.mem_append.mp ht with hm | hm
    · exact htr t hm
    · rw [List.mem_singleton.mp hm]
      exact closeTrade_conserv s f hd hinv

lemma DInv_initD : DInv initD :=
  ⟨fun t ht => absurd ht (List.not_mem_nil t), fun hne => absurd rfl hne⟩

lemma DInv_foldl : ∀ (l : List Fill) (s : DState), DInv s → DInv (l.foldl applyFill s) := by
  intro l
  induction l with
  | nil => exact fun _ h => h
  | cons f t ih => exact fun s h => ih (applyFill s f) (DInv_applyFill s f h)

/-- C4: P&L conservation — every round trip the Deriver materializes has
net P&L equal to the direction-signed difference between exit and entry
notional (the proportional-realization rule for partial closes is what
makes this hold across arbitrary fill histories). -/
theorem roundTrip_conservation (l : List Fill) (t : RoundTrip)
    (ht : t ∈ (replay l).trades) :
    t.netPnl = t.dir * (t.exitNotional - t.entryNotional) :=
  (DInv_foldl (sortFills l) initD DInv_initD).1 t ht

/-- Witness for C4: conservation instantiated on the round trip produced
by the buy 10 @ 100 / buy 10 @ 110 / sell 20 @ 120 scenario. -/
theorem roundTrip_conservation_witness :
    rtDemo.netPnl = rtDemo.dir * (rtDemo.exitNotional - rtDemo.entryNotional) :=
  roundTrip_conservation [fb1, fb2, fs3] rtDemo (by decide)

/-! ### Round-trip immutability and the flat-close scenario (claim C5) -/

lemma applyFill_trades_extend (s : DState) (f : Fill) :
    ∃ u, (applyFill s f).trades = s.trades ++ u := by
  unfold applyFill
  split_ifs
  · exact ⟨[], by simp [openFrom]⟩
  · exact ⟨[], by simp⟩
  · exact ⟨[], by simp⟩
  · exact ⟨[closeTrade s f], rfl⟩
  · exact ⟨[closeTrade s f], by simp [openFrom]⟩

lemma foldl_trades_extend : ∀ (l : List Fill) (s : DState),
    ∃ u, (l.foldl applyFill s).trades = s.trades ++ u := by
  intro l
  induction l with
  | nil => exact fun s => ⟨[], by simp⟩
  | cons f t ih =>
    intro s
    obtain ⟨u1, hu1⟩ := applyFill_trades_extend s f
    obtain ⟨u2, hu2⟩ := ih (applyFill s f)
    exact ⟨u1 ++ u2, by rw [List.foldl_cons, hu2, hu1, List.append_assoc]⟩

/-- C5: buy 10 @ 100 then buy 10 @ 110 yields quantity 20 at
volume-weighted entry 105; a subsequent sell 20 @ 120 materializes exactly
one round trip with net P&L (120 − 105) × 20 = 300 and returns the
position to flat; and however the derivation continues, the materialized
round trip stays first in the ledger unchanged (immutability). -/
theorem scenario_vwap_flat_close :
    (replay [fb1, fb2]).qty = 20 ∧
    (replay [fb1, fb2]).avg = 105 ∧
    (replay [fb1, fb2, fs3]).trades = [rtDemo] ∧
    (replay [fb1, fb2, fs3]).qty = 0 ∧
    rtDemo.netPnl = (120 - 105) * 20 ∧
    (∀ more : List Fill,
      ((more.foldl applyFill (replay [fb1, fb2, fs3])).trades).head? = some rtDemo) := by
  refine ⟨by decide, by decide, by decide, by decide, by decide, ?_⟩
  intro more
  obtain ⟨u, hu⟩ := foldl_trades_extend more (replay [fb1, fb2, fs3])
  rw [hu, show (replay [fb1, fb2, fs3]).trades = [rtDemo] from by decide]
  rfl

/-! ### Replay determinism (claim C3) -/

lemma fillLE_antisymm_key {f g : Fill} (h1 : fillLE f g) (h2 : fillLE g f) :
    keyOf f = keyOf g := by
  unfold fillLE at h1 h2
  unfold keyOf
  simp only [Prod.mk.injEq]
  rcases h1 with h1 | ⟨h1t, h1s⟩ <;> rcases h2 with h2 | ⟨h2t, h2s⟩ <;>
    exact ⟨by omega, by omega⟩

lemma sorted_perm_keyNodup_eq (l₁ : List Fill) :
    ∀ l₂, l₁.Perm l₂ → l₁.Sorted fillLE → l₂.Sorted fillLE →
      (l₁.map keyOf).Nodup → l₁ = l₂ := by
  induction l₁ with
  | nil =>
    intro l₂ hp _ _ _
    exact hp.nil_eq
  | cons a t₁ ih =>
    intro l₂ hp hs₁ hs₂ hk
    cases l₂ with
    | nil => exact absurd hp.eq_nil (by simp)
    | cons b t₂ =>
      have hab : a = b := by
        have ha2 : a ∈ b :: t₂ := hp.mem_iff.mp (List.mem_cons_self a t₁)
        rcases List.mem_cons.mp ha2 with hh | hat2
        · exact hh
        · have hba : fillLE b a := (List.sorted_cons.mp hs₂).1 a hat2
          have hb1 : b ∈ a :: t₁ := hp.symm.mem_iff.mp (List.mem_cons_self b t₂)
          rcases List.mem_cons.mp hb1 with hh | hbt1
          · exact hh.symm
          · have hab2 : fillLE a b := (List.sorted_cons.mp hs₁).1 b hbt1
            have hkey : keyOf a = keyOf b := fillLE_antisymm_key hab2 hba
            exfalso
            have hcons : (∀ x ∈ t₁, ¬keyOf x = keyOf a) ∧ (t₁.map keyOf).Nodup := by
              simpa using hk
            exact hcons.1 b hbt1 hkey.symm
      subst hab
      have ht : t₁.Perm t₂ := hp.cons_inv
      have hk1 : (t₁.map keyOf).Nodup := by
        have hcons : (∀ x ∈ t₁, ¬keyOf x = keyOf a) ∧ (t₁.map keyOf).Nodup := by
          simpa using hk
        exact hcons.2
      rw [ih t₂ ht (List.sorted_cons.mp hs₁).2 (List.sorted_cons.mp hs₂).2 hk1]

lemma sortFills_eq_of_perm (l₁ l₂ : List Fill) (hp : l₁.Perm l₂)
    (hk : (l₁.map keyOf).Nodup) : sortFills l₁ = sortFills l₂ := by
  apply sorted_perm_keyNodup_eq
  · exact ((List.perm_insertionSort fillLE l₁).trans hp).trans
      (List.perm_insertionSort fillLE l₂).symm
  · exact List.sorted_insertionSort fillLE l₁
  · exact List.sorted_insertionSort fillLE l₂
  · have hmap : List.Perm ((sortFills l₁).map keyOf) (l₁.map keyOf) :=
      (List.perm_insertionSort fillLE l₁).map keyOf
    exact (hmap.nodup_iff).mpr hk

/-- C3: the Deriver is a deterministic pure function of the fill history —
it is a Lean function, so re-running it on the same input reproduces the
same Position and round-trip set definitionally; and for any permutation
of the same timestamped fills (with the stable sequence numbers making
the replay keys pairwise distinct), replaying in fill-time order with
ties broken by the sequence number yields the identical result. -/
theorem replay_deterministic (l₁ l₂ : List Fill)
    (hp : l₁.Perm l₂) (hk : (l₁.map keyOf).Nodup) :
    replay l₁ = replay l₂ := by
  unfold replay
  rw [sortFills_eq_of_perm l₁ l₂ hp hk]

/-- Witness for C3: the scenario fills delivered in a swapped arrival
order replay to the identical state. -/
theorem replay_deterministic_witness :
    replay [fb1, fb2, fs3] = replay [fb2, fb1, fs3] :=
  replay_deterministic [fb1, fb2, fs3] [fb2, fb1, fs3]
    (List.Perm.swap fb2 fb1 [fs3]) (by decide)

/-! ### Strategy isolation (claim C7) -/

/-- C7: positions are derived per (strategy, symbol) from that strategy's
own fills only — appending fills of other strategies (for example one
strategy closing its position in the shared symbol) leaves another
strategy's derived state, in particular its Position quantity, unchanged. -/
theorem strategy_isolation (sid sym : String) (base extra : List Fill)
    (hext : ∀ f ∈ extra, f.strategyId ≠ sid) :
    deriveFor sid sym (base ++ extra) = deriveFor sid sym base := by
  unfold deriveFor fillsFor
  rw [List.filter_append]
  have hnil : (extra.filter fun f => f.strategyId == sid && f.symbol == sym) = [] := by
    rw [List.filter_eq_nil_iff]
    intro f hf
    simp only [Bool.and_eq_true, beq_iff_eq, not_and]
    intro h1 _
    exact hext f hf h1
  rw [hnil, List.append_nil]

/-- Witness for C7: strategies `s1` and `s2` both buy NVDA; `s1` closing
its position leaves the `s2` position quantity at 10. -/
theorem strategy_isolation_witness :
    deriveFor "s2" "NVDA" ([fb1, gb2] ++ [gx3]) = deriveFor "s2" "NVDA" [fb1, gb2] ∧
    (deriveFor "s2" "NVDA" ([fb1, gb2] ++ [gx3])).qty = 10 := by
  have h := strategy_isolation "s2" "NVDA" [fb1, gb2] [gx3] (by decide)
  exact ⟨h, by rw [h]; decide⟩

/-! ### Rollup consistency (claim C6) -/

lemma foldl_accStep (rows : List SymbolPerf) :
    ∀ a : ℚ × ℚ × Nat × Nat × List ℚ,
      rows.foldl accStep a =
        (a.1 + (rows.map SymbolPerf.grossProfit).sum,
          a.2.1 + (rows.map SymbolPerf.grossLoss).sum,
          a.2.2.1 + (rows.map SymbolPerf.wins).sum,
          a.2.2.2.1 + (rows.map SymbolPerf.tradesTotal).sum,
          a.2.2.2.2 ++ (rows.map SymbolPerf.tradeReturns).flatten) := by
  induction rows with
  | nil =>
    intro a
    simp
  | cons r t ih =>
    intro a
    rw [List.foldl_cons, ih]
    simp [accStep, add_assoc, List.append_assoc]

lemma sumAcc_eq (rows : List SymbolPerf) :
    sumAcc rows =
      ((rows.map SymbolPerf.grossProfit).sum,
        (rows.map SymbolPerf.grossLoss).sum,
        (rows.map SymbolPerf.wins).sum,
        (rows.map SymbolPerf.tradesTotal).sum,
        (rows.map SymbolPerf.tradeReturns).flatten) := by
  unfold sumAcc
  rw [foldl_accStep]
  simp

/-- C6: rollup consistency — strategy-level gross profit (and gross loss,
wins and trade count) is the sum of the per-symbol figures, the pooled
return series is the concatenation of the per-symbol series, and the
strategy-level ratio metrics (profit factor, win rate, Sharpe) are
recomputed from those rolled-up figures; concretely, for per-symbol
profit factors 2 and 0.1 the rollup reports 110/150 = 11/15, which
differs from the arithmetic mean 1.05 of the per-symbol profit factors,
and the Sharpe statistic of the pooled return series is defined where a
per-symbol series alone yields none. -/
theorem rollup_consistency :
    (∀ rows : List SymbolPerf,
      (rollup rows).grossProfit = (rows.map SymbolPerf.grossProfit).sum ∧
      (rollup rows).grossLoss = (rows.map SymbolPerf.grossLoss).sum ∧
      (rollup rows).tradeReturns = (rows.map SymbolPerf.tradeReturns).flatten ∧
      (rollup rows).profitFactor =
        pfOf (rows.map SymbolPerf.grossProfit).sum (rows.map SymbolPerf.grossLoss).sum ∧
      (rollup rows).winRate =
        winRateOf (rows.map SymbolPerf.wins).sum (rows.map SymbolPerf.tradesTotal).sum ∧
      (rollup rows).sharpeSq =
        sharpeSqOf ((rows.map SymbolPerf.tradeReturns).flatten)) ∧
    (pfOf 100 (-50) = some 2 ∧
      pfOf 10 (-100) = some (1 / 10) ∧
      (rollup [⟨"A", 100, -50, 1, 1, [1 / 10]⟩,
        ⟨"B", 10, -100, 0, 1, [-1 / 20]⟩]).profitFactor = some (11 / 15) ∧
      (11 : ℚ) / 15 ≠ (2 + 1 / 10) / 2 ∧
      sharpeSqOf [(1 : ℚ) / 10] = none ∧
      (rollup [⟨"A", 100, -50, 1, 1, [1 / 10]⟩,
        ⟨"B", 10, -100, 0, 1, [-1 / 20]⟩]).sharpeSq = some (1 / 9)) := by
  constructor
  · intro rows
    unfold rollup
    rw [sumAcc_eq]
    exact ⟨rfl, rfl, rfl, rfl, rfl, rfl⟩
  · exact ⟨by decide, by decide, by decide, by decide, by decide, by decide⟩

/-- Witness for C6: the rollup equations instantiated on a concrete
two-symbol report. -/
theorem rollup_consistency_witness :
    (rollup [⟨"A", 100, -50, 1, 1, [1 / 10]⟩, ⟨"B", 10, -100, 0, 1, [-1 / 20]⟩]).grossProfit =
      ((([⟨"A", 100, -50, 1, 1, [1 / 10]⟩,
        ⟨"B", 10, -100, 0, 1, [-1 / 20]⟩] : List SymbolPerf)).map
        SymbolPerf.grossProfit).sum :=
  (rollup_consistency.1
    [⟨"A", 100, -50, 1, 1, [1 / 10]⟩, ⟨"B", 10, -100, 0, 1, [-1 / 20]⟩]).1

end Schicchi
